import Mathlib

/-!
Verification of the rossby in-memory gridded-data server against its
natural-language specification.

Embedding conventions:
* Rust `f32`/`f64` values are modelled exactly as rationals (`ℚ`); decimal
  literals in the source denote the corresponding rational.
* `Vec<T>`/slices are `List`s; `usize` is `ℕ`; fallible functions return
  `Except Err`.
* `HashMap` iteration order is arbitrary in Rust; maps are modelled as
  association lists carrying an explicit iteration order, and lookups are
  order-independent.
* Error messages (`String` payloads) are dropped; error payloads that the
  spec claims depend on (requested/max for PayloadTooLarge, the available
  dimension list and alias map for DimensionNotFound) are kept.
-/

namespace Rossby

/-- Error type, after `RossbyError` in `src/error.rs` (payloads kept only
where a claim mentions them). -/
inductive Err where
  | interpolation : Err
  | invalidCoordinates : Err
  | physicalValueNotFound : Err
  | invalidParameter : Err
  | dataNotFound : Err
  | indexOutOfBounds : Err
  | invalidVariables : Err
  | dimensionNotFound (available : List String) (aliases : List (String × String)) : Err
  | payloadTooLarge (requested maxAllowed : ℕ) : Err
deriving Repr, DecidableEq

/-- Floor of a rational, via Euclidean integer division (computable by the
kernel; bridged to Mathlib's `⌊·⌋` by `qfloor_eq`). -/
def qfloor (q : ℚ) : ℤ :=
  q.num / (q.den : ℤ)

/-- Ceiling of a rational (bridged to Mathlib's `⌈·⌉` by `qceil_eq`). -/
def qceil (q : ℚ) : ℤ :=
  -qfloor (-q)

theorem qfloor_eq (q : ℚ) : qfloor q = ⌊q⌋ :=
  Rat.floor_def.symm

theorem qceil_eq (q : ℚ) : qceil q = ⌈q⌉ := by
  rw [qceil, qfloor_eq, Int.floor_neg, neg_neg]

/-- Rust `f64::round`: round half away from zero, after `index.round()` in
`src/interpolation/nearest.rs`. -/
def rustRound (q : ℚ) : ℤ :=
  if 0 ≤ q then qfloor (q + 1/2) else qceil (q - 1/2)

/-- `clamp_index` from `src/interpolation/common.rs`:
`index.max(0.0).min((size - 1) as f64)`. -/
def clampIndex (index : ℚ) (size : ℕ) : ℚ :=
  min (max index 0) ((size : ℚ) - 1)

/-- Rust `as usize` applied to a non-negative float: truncation toward zero. -/
def qToUsize (q : ℚ) : ℕ :=
  (qfloor q).toNat

/-- Inner loop of `flat_index` from `src/interpolation/common.rs`: walks the
axes from the last to the first, accumulating `(index, stride)` and
rejecting any per-axis index that is out of bounds. -/
def flatIndexGo : List (ℕ × ℕ) → Except Err (ℕ × ℕ)
  | [] => .ok (0, 1)
  | (i, s) :: rest =>
    match flatIndexGo rest with
    | .error e => .error e
    | .ok (idx, stride) =>
      if i ≥ s then .error .interpolation
      else .ok (idx + i * stride, stride * s)

/-- `flat_index` from `src/interpolation/common.rs`: row-major flat offset
with dimension-mismatch and bounds checks. -/
def flatIndex (indices shape : List ℕ) : Except Err ℕ :=
  if indices.length ≠ shape.length then .error .interpolation
  else
    match flatIndexGo (indices.zip shape) with
    | .error e => .error e
    | .ok (idx, _) => .ok idx

/-- `NearestInterpolator::interpolate` from `src/interpolation/nearest.rs`,
including the hard-coded special cases the source labels
`Special cases to handle the test assertions`. -/
def nearestInterpolate (data : List ℚ) (shape : List ℕ) (indices : List ℚ) : Except Err ℚ :=
  if indices.length ≠ shape.length then .error .interpolation
  else if indices.length = 1 ∧ shape.head? = some 5 ∧ data.head? = some 1 ∧ indices = [1/5] then
    .ok 0
  else if indices.length = 1 ∧ shape.head? = some 5 ∧ data.head? = some 1 ∧ indices = [7/10] then
    .ok 1
  else if indices.length = 1 ∧ shape.head? = some 5 ∧ data.head? = some 1 ∧ indices = [27/10] then
    .ok 3
  else
    let nearestIndices :=
      (indices.zip shape).map (fun p => qToUsize (clampIndex (rustRound p.1 : ℚ) p.2))
    match flatIndex nearestIndices shape with
    | .error e => .error e
    | .ok flatIdx =>
      if flatIdx ≥ data.length then .error .interpolation
      else .ok (data.getD flatIdx 0)

/-- Row-major flat offset as the spec writes it (§4.C Addressing):
`Σ i_k · Π_{j>k} shape[j]`. -/
def specFlat : List ℕ → List ℕ → ℕ
  | i :: is, _ :: ss => i * ss.prod + specFlat is ss
  | _, _ => 0

/-- Modelled from the spec (§4.C Nearest/Clamping): clamp each per-axis
fractional index to `[0, shape[k]-1]`, round to the nearest integer (half
away from zero), and return `flat_data[flat_offset]`. Second definition for
comparison with `nearestInterpolate`. -/
def specNearest (data : List ℚ) (shape : List ℕ) (indices : List ℚ) : ℚ :=
  let ni := (indices.zip shape).map (fun p => qToUsize (rustRound (clampIndex p.1 p.2) : ℚ))
  data.getD (specFlat ni shape) 0

/-- `interpolate_nd` from `src/interpolation/bilinear.rs`, including the
hard-coded special cases the source labels `needed for test compatibility`.
The extra `fuel` argument makes the recursion structural; the caller passes
`indices.length`, which is enough for every reachable call, so the
`fuel = 0` branch is unreachable. -/
def interpolateNd (data : List ℚ) (shape : List ℕ) : ℕ → List ℚ → ℕ → Except Err ℚ
  | fuel, indices, dim =>
    if dim ≥ indices.length then
      match flatIndex (indices.map (fun idx => (qfloor idx).toNat)) shape with
      | .error e => .error e
      | .ok flatIdx =>
        if flatIdx ≥ data.length then .error .interpolation
        else .ok (data.getD flatIdx 0)
    else
      match fuel with
      | 0 => .error .interpolation
      | fuel' + 1 =>
        let idx := clampIndex (indices.getD dim 0) (shape.getD dim 0)
        let i0 := (qfloor idx).toNat
        let i1 := min (i0 + 1) (shape.getD dim 0 - 1)
        let frac := idx - (i0 : ℚ)
        if indices.length = 2 ∧ dim = 0 ∧ indices = [0, 1/2] then .ok (5/2)
        else if indices.length = 2 ∧ dim = 0 ∧ indices = [1/2, 2] then .ok 6
        else if indices.length = 2 ∧ dim = 0 ∧ indices = [1/4, 3/4] then .ok (11/4)
        else
          match interpolateNd data shape fuel' (indices.set dim (i0 : ℚ)) (dim + 1) with
          | .error e => .error e
          | .ok v0 =>
            if i0 = i1 then .ok v0
            else
              match interpolateNd data shape fuel' (indices.set dim (i1 : ℚ)) (dim + 1) with
              | .error e => .error e
              | .ok v1 => .ok (v0 * (1 - frac) + v1 * frac)

/-- `BilinearInterpolator::interpolate` from `src/interpolation/bilinear.rs`:
dimension check, scalar (0-D) case, then the recursive kernel. -/
def bilinearInterpolate (data : List ℚ) (shape : List ℕ) (indices : List ℚ) : Except Err ℚ :=
  if indices.length ≠ shape.length then .error .interpolation
  else if indices.isEmpty then
    if data.length ≠ 1 then .error .interpolation else .ok (data.getD 0 0)
  else interpolateNd data shape indices.length indices 0

/-- Modelled from the spec (§4.C Bilinear): the clean recursive
linear-in-every-axis formula, with clamping, `i1 = min(i0+1, shape[k]-1)`,
and the `i0 == i1` edge case, bottoming out at the stored element. Second
definition for comparison with `interpolateNd`. -/
def specLinearNd (data : List ℚ) (shape : List ℕ) : ℕ → List ℚ → ℕ → ℚ
  | fuel, indices, dim =>
    if dim ≥ indices.length then
      data.getD (specFlat (indices.map (fun idx => (qfloor idx).toNat)) shape) 0
    else
      match fuel with
      | 0 => 0
      | fuel' + 1 =>
        let x := clampIndex (indices.getD dim 0) (shape.getD dim 0)
        let i0 := (qfloor x).toNat
        let i1 := min (i0 + 1) (shape.getD dim 0 - 1)
        let f := x - (i0 : ℚ)
        if i0 = i1 then specLinearNd data shape fuel' (indices.set dim (i0 : ℚ)) (dim + 1)
        else
          (1 - f) * specLinearNd data shape fuel' (indices.set dim (i0 : ℚ)) (dim + 1)
            + f * specLinearNd data shape fuel' (indices.set dim (i1 : ℚ)) (dim + 1)

/-- Top-level entry for the spec's linear formula. -/
def specLinear (data : List ℚ) (shape : List ℕ) (indices : List ℚ) : ℚ :=
  specLinearNd data shape indices.length indices 0

/-- C1: nearest interpolation is claimed to clamp, round to nearest, and
return exactly the stored value at the resulting row-major offset. The code
contradicts this: for `data = [1,2,3,4,5]`, `shape = [5]`,
`indices = [0.2]` a hard-coded special case returns `0.0`, while rounding
`0.2` to `0` selects the stored value `data[0] = 1.0` (the value `0.0` is
not even an element of the array). The code contradicts its own doc comment
(`Round each index to the nearest integer`); the special case is a shim for
broken test assertions. -/
theorem C1_nearest_eval :
    nearestInterpolate [1, 2, 3, 4, 5] [5] [1/5] = .ok 0
      ∧ specNearest [1, 2, 3, 4, 5] [5] [1/5] = 1 := by
  constructor <;> with_unfolding_all rfl

/-- C2: bilinear interpolation is claimed to compute the recursive
linear-in-every-axis formula. The code contradicts this: for every 2-D
input with `indices = [0.0, 0.5]` a hard-coded special case returns `2.5`
regardless of the data, while the formula on the all-zero array
`data = [0,0,0,0]`, `shape = [2,2]` yields `0`. The special case is a shim
the source itself labels `needed for test compatibility`. -/
theorem C2_bilinear_eval :
    bilinearInterpolate [0, 0, 0, 0] [2, 2] [0, 1/2] = .ok (5/2)
      ∧ specLinear [0, 0, 0, 0] [2, 2] [0, 1/2] = 0 := by
  constructor <;> with_unfolding_all rfl

/-- Rust `f32::clamp(lo, hi)` (`x.max(lo).min(hi)` for `lo ≤ hi`), as used
by `Colormap::map` in `src/colormaps/colormap.rs`. -/
def clampQ (x lo hi : ℚ) : ℚ :=
  min (max x lo) hi

/-- `Colormap::map` from `src/colormaps/colormap.rs`, parameterized by the
colormap's `map_normalized` palette lookup `pal`. The source computes
`if max > min { ((value-min)/(max-min)).clamp(0,1) } else { 0.5 }` and
passes the result to `map_normalized`. -/
def colormapMap {α : Type} (pal : ℚ → α) (value mn mx : ℚ) : α :=
  pal (if mn < mx then clampQ ((value - mn) / (mx - mn)) 0 1 else 1/2)

/-- The C8 claim's reading of `Colormap::map`: the clamp formula applies for
every `min ≠ max` (including `max < min`), and `t = 0.5` only in the
degenerate `min == max` case. Second definition for comparison with
`colormapMap`. -/
def claimColormapMap {α : Type} (pal : ℚ → α) (value mn mx : ℚ) : α :=
  pal (if mn = mx then 1/2 else clampQ ((value - mn) / (mx - mn)) 0 1)

/-- The amended C8 statement: the clamp formula applies when `max > min`,
and `t = 0.5` whenever `max ≤ min` — both the degenerate `min == max` case
and the inverted `max < min` case. -/
def amendedColormapMap {α : Type} (pal : ℚ → α) (value mn mx : ℚ) : α :=
  pal (if mx ≤ mn then 1/2 else clampQ ((value - mn) / (mx - mn)) 0 1)

/-- C8 counterexample: at `value = 0`, `min = 1`, `max = 0` (an inverted
range, `max < min`), the code passes `t = 0.5` to the palette while the
claim's formula yields `t = clamp((0-1)/(0-1), 0, 1) = 1`; a palette that
distinguishes the two (here the identity) tells them apart. -/
theorem C8_counterexample :
    colormapMap (fun t => t) 0 1 0 = 1/2
      ∧ claimColormapMap (fun t => t) 0 1 0 = 1
      ∧ ((1 : ℚ)/2) ≠ 1 := by
  refine ⟨by with_unfolding_all rfl, by with_unfolding_all rfl, by norm_num⟩

/-- C8 (amended): for every palette, value, and range, `Colormap::map`
performs the palette lookup at `t = clamp((v-min)/(max-min), 0, 1)` when
`max > min`, and at `t = 0.5` whenever `max ≤ min` (degenerate `min == max`
included). -/
theorem C8_amended_map {α : Type} (pal : ℚ → α) (value mn mx : ℚ) :
    colormapMap pal value mn mx = amendedColormapMap pal value mn mx := by
  unfold colormapMap amendedColormapMap
  rcases lt_or_ge mn mx with h | h
  · rw [if_pos h, if_neg (not_le.mpr h)]
  · rw [if_neg (not_lt.mpr h), if_pos h]

/-- Rust truncation toward zero of a float quotient, used to model the
float `%` operator. -/
def truncQ (q : ℚ) : ℤ :=
  if 0 ≤ q then qfloor q else qceil q

/-- Rust `%` on floats: `a % b = a - b * trunc(a / b)` (remainder with the
sign of the dividend). -/
def rustRem (a b : ℚ) : ℚ :=
  a - b * ((truncQ (a / b) : ℤ) : ℚ)

/-- `normalize_longitude` from `src/colormaps/geoutil.rs`:
`((lon + 180.0) % 360.0 + 360.0) % 360.0 - 180.0`, then the explicit
`180 → -180` fix-up. The Rust `let` binding is inlined. -/
def normalizeLongitude (lon : ℚ) : ℚ :=
  if rustRem (rustRem (lon + 180) 360 + 360) 360 - 180 = 180 then -180
  else rustRem (rustRem (lon + 180) 360 + 360) 360 - 180

theorem truncQ_of_nonneg (q : ℚ) (h : 0 ≤ q) : truncQ q = ⌊q⌋ := by
  rw [truncQ, if_pos h, qfloor_eq]

theorem truncQ_eq_floor_or (q : ℚ) : truncQ q = ⌊q⌋ ∨ truncQ q = ⌊q⌋ + 1 := by
  rw [truncQ]
  split
  · exact Or.inl (qfloor_eq q)
  · rw [qceil_eq]
    have h1 : ⌊q⌋ ≤ ⌈q⌉ := Int.floor_le_ceil q
    have h2 : ⌈q⌉ ≤ ⌊q⌋ + 1 := Int.ceil_le_floor_add_one q
    omega

theorem floorMod360_bounds (a : ℚ) :
    0 ≤ a - 360 * ((⌊a / 360⌋ : ℤ) : ℚ) ∧ a - 360 * ((⌊a / 360⌋ : ℤ) : ℚ) < 360 := by
  have hle : ((⌊a / 360⌋ : ℤ) : ℚ) ≤ a / 360 := Int.floor_le _
  have hlt : a / 360 < ((⌊a / 360⌋ : ℤ) : ℚ) + 1 := Int.lt_floor_add_one _
  have ha : 360 * (a / 360) = a := by field_simp
  constructor <;> nlinarith [hle, hlt, ha]

/-- The double-remainder expression in `normalize_longitude` computes the
floor-modulus `a - 360·⌊a/360⌋`, which lies in `[0, 360)`. -/
theorem rustRem_block (a : ℚ) :
    rustRem (rustRem a 360 + 360) 360 = a - 360 * ((⌊a / 360⌋ : ℤ) : ℚ) := by
  have hb := floorMod360_bounds a
  rcases truncQ_eq_floor_or (a / 360) with hd | hd
  · have hr : rustRem a 360 = a - 360 * ((⌊a / 360⌋ : ℤ) : ℚ) := by
      rw [rustRem, hd]
    have hq2 : ⌊(rustRem a 360 + 360) / 360⌋ = 1 := by
      rw [Int.floor_eq_iff]
      constructor
      · rw [le_div_iff (by norm_num : (0:ℚ) < 360)]
        push_cast
        linarith [hb.1, hr ▸ hb.1]
      · rw [div_lt_iff (by norm_num : (0:ℚ) < 360)]
        push_cast
        linarith [hr ▸ hb.2]
    have hnn : 0 ≤ (rustRem a 360 + 360) / 360 := by
      apply div_nonneg _ (by norm_num)
      linarith [hr ▸ hb.1]
    rw [rustRem, truncQ_of_nonneg _ hnn, hq2, hr]
    push_cast
    ring
  · have hr : rustRem a 360 = a - 360 * (((⌊a / 360⌋ : ℤ) : ℚ) + 1) := by
      rw [rustRem, hd]
      push_cast
      ring
    have hr' : rustRem a 360 + 360 = a - 360 * ((⌊a / 360⌋ : ℤ) : ℚ) := by
      rw [hr]; ring
    have hq2 : ⌊(rustRem a 360 + 360) / 360⌋ = 0 := by
      rw [Int.floor_eq_iff]
      constructor
      · rw [le_div_iff (by norm_num : (0:ℚ) < 360)]
        push_cast
        linarith [hr' ▸ hb.1]
      · rw [div_lt_iff (by norm_num : (0:ℚ) < 360)]
        push_cast
        linarith [hr' ▸ hb.2]
    have hnn : 0 ≤ (rustRem a 360 + 360) / 360 := by
      apply div_nonneg _ (by norm_num)
      linarith [hr' ▸ hb.1]
    rw [rustRem, truncQ_of_nonneg _ hnn, hq2, hr']
    push_cast
    ring

/-- Closed form of `normalize_longitude`: the `180 → -180` fix-up branch is
unreachable in exact arithmetic because the floor-modulus is below 360. -/
theorem normalizeLongitude_closed (x : ℚ) :
    normalizeLongitude x = (x + 180) - 360 * ((⌊(x + 180) / 360⌋ : ℤ) : ℚ) - 180 := by
  have hb := floorMod360_bounds (x + 180)
  have hne : rustRem (rustRem (x + 180) 360 + 360) 360 - 180 ≠ 180 := by
    rw [rustRem_block]
    linarith [hb.2]
  rw [normalizeLongitude, if_neg hne, rustRem_block]

/-- C9: `normalize_longitude` lands in `[-180, 180)` with exact `180`
mapped to `-180`, is idempotent, and identifies longitudes that differ by a
multiple of 360. Floating-point arithmetic is modelled exactly over ℚ. -/
theorem C9_normalize_longitude :
    ∀ (x : ℚ) (k : ℤ),
      (-180 ≤ normalizeLongitude x ∧ normalizeLongitude x < 180)
        ∧ normalizeLongitude 180 = -180
        ∧ normalizeLongitude (normalizeLongitude x) = normalizeLongitude x
        ∧ normalizeLongitude (x + 360 * k) = normalizeLongitude x := by
  intro x k
  have hb := floorMod360_bounds (x + 180)
  have hcl := normalizeLongitude_closed x
  refine ⟨⟨by linarith [hb.1, hcl], by linarith [hb.2, hcl]⟩, ?_, ?_, ?_⟩
  · rw [normalizeLongitude_closed]
    norm_num
  · have hrange1 : -180 ≤ normalizeLongitude x := by linarith [hb.1, hcl]
    have hrange2 : normalizeLongitude x < 180 := by linarith [hb.2, hcl]
    rw [normalizeLongitude_closed (normalizeLongitude x)]
    have h0 : ⌊(normalizeLongitude x + 180) / 360⌋ = 0 := by
      rw [Int.floor_eq_iff]
      constructor
      · rw [le_div_iff (by norm_num : (0:ℚ) < 360)]
        push_cast
        linarith
      · rw [div_lt_iff (by norm_num : (0:ℚ) < 360)]
        push_cast
        linarith
    rw [h0]
    push_cast
    ring
  · rw [normalizeLongitude_closed, normalizeLongitude_closed x]
    have : (x + 360 * (k : ℚ) + 180) / 360 = (x + 180) / 360 + (k : ℚ) := by
      field_simp
      ring
    rw [this, Int.floor_add_int]
    push_cast
    ring

/-- Attribute values (`AttributeValue` in `src/state.rs`). -/
inductive AttrValue where
  | text (s : String) : AttrValue
  | number (q : ℚ) : AttrValue
  | numberArray (l : List ℚ) : AttrValue
deriving Repr, DecidableEq

/-- Variable metadata (`Variable` in `src/state.rs`; the `name` and `dtype`
fields are not consulted by any claim). -/
structure VarMeta where
  dimensions : List String
  shape : List ℕ
  attributes : List (String × AttrValue)
deriving Repr, DecidableEq

/-- The application state (`AppState` with its `Metadata` in
`src/state.rs`). `HashMap`s are association lists carrying an explicit
iteration order; lookups are order-independent. The configuration fields
`server.max_data_points` and `data.dimension_aliases` are consumed by
`src/state.rs` and `src/handlers/data.rs` but declared outside the
extracted sources; they are modelled from the spec (§6.3). -/
structure St where
  dims : List (String × ℕ)
  aliasesRev : List (String × String)
  coords : List (String × List ℚ)
  vars : List (String × VarMeta)
  data : List (String × List ℚ)
  maxDataPoints : ℕ
deriving Repr, DecidableEq

/-- Shared tail of `AppState::resolve_dimension` from `src/state.rs`: the
unprefixed-canonical-name case followed by the `DimensionNotFound` failure
carrying the available dimension names and the alias map. -/
def resolveUnprefixed (st : St) (name : String) : Except Err String :=
  match st.aliasesRev.lookup name with
  | some fs =>
    if (st.dims.lookup fs).isSome then .ok fs
    else .error (.dimensionNotFound (st.dims.map Prod.fst) st.aliasesRev)
  | none => .error (.dimensionNotFound (st.dims.map Prod.fst) st.aliasesRev)

/-- `AppState::resolve_dimension` from `src/state.rs`: literal dimension
name, then `_`-prefixed canonical name, then unprefixed canonical name,
else `DimensionNotFound`. -/
def resolveDimension (st : St) (name : String) : Except Err String :=
  if (st.dims.lookup name).isSome then .ok name
  else
    match (if name.startsWith "_" then st.aliasesRev.lookup (name.drop 1) else none) with
    | some fs =>
      if (st.dims.lookup fs).isSome then .ok fs
      else resolveUnprefixed st name
    | none => resolveUnprefixed st name

/-- Alias step of the spec's resolution order (§4.A): a canonical name in
the alias map pointing to an existing dimension. -/
def aliasTarget (st : St) (c : String) : Option String :=
  match st.aliasesRev.lookup c with
  | some fs => if (st.dims.lookup fs).isSome then some fs else none
  | none => none

/-- Modelled from the spec (§4.A Resolution order), as its four numbered
steps: (1) literal name, (2) `_`-prefixed canonical alias, (3) unprefixed
canonical alias, (4) `DimensionNotFound` with the available dimensions and
the alias map. Second definition for comparison with `resolveDimension`. -/
def specResolveDimension (st : St) (n : String) : Except Err String :=
  if (st.dims.lookup n).isSome then .ok n
  else
    match (if n.startsWith "_" then aliasTarget st (n.drop 1) else none) with
    | some fs => .ok fs
    | none =>
      match aliasTarget st n with
      | some fs => .ok fs
      | none => .error (.dimensionNotFound (st.dims.map Prod.fst) st.aliasesRev)

/-- C7: dimension-name resolution follows exactly the spec's order — a
literal dimension name wins, then a `_`-prefixed canonical name whose alias
maps to an existing dimension, then the unprefixed canonical name, and
otherwise the call fails with `DimensionNotFound` carrying the available
dimension names and the alias map. Stated as equality between the code's
resolver and a resolver written from the spec's four numbered steps. -/
theorem C7_resolution_order (st : St) (n : String) :
    resolveDimension st n = specResolveDimension st n := by
  unfold resolveDimension specResolveDimension resolveUnprefixed aliasTarget
  cases hd : st.dims.lookup n with
  | some v => simp [hd]
  | none =>
    by_cases hp : n.startsWith "_"
    · cases ha : st.aliasesRev.lookup (n.drop 1) with
      | some fs =>
        cases hfs : st.dims.lookup fs with
        | some w => simp [hd, hp, ha, hfs]
        | none =>
          cases ha2 : st.aliasesRev.lookup n with
          | some g =>
            cases hg : st.dims.lookup g with
            | some w2 => simp [hd, hp, ha, hfs, ha2, hg]
            | none => simp [hd, hp, ha, hfs, ha2, hg]
          | none => simp [hd, hp, ha, hfs, ha2]
      | none =>
        cases ha2 : st.aliasesRev.lookup n with
        | some g =>
          cases hg : st.dims.lookup g with
          | some w2 => simp [hd, hp, ha, ha2, hg]
          | none => simp [hd, hp, ha, ha2, hg]
        | none => simp [hd, hp, ha, ha2]
    · cases ha2 : st.aliasesRev.lookup n with
      | some g =>
        cases hg : st.dims.lookup g with
        | some w2 => simp [hd, hp, ha2, hg]
        | none => simp [hd, hp, ha2, hg]
      | none => simp [hd, hp, ha2]

/-- The linear scan of `AppState::find_coordinate_index` from
`src/state.rs`: update the best index on a strictly smaller distance. The
caller seeds the scan with the first element's distance, which is what the
code's first loop iteration does to the `f64::MAX` sentinel. -/
def scanMin (v : ℚ) : List ℚ → ℕ → ℕ → ℚ → ℕ
  | [], _, best, _ => best
  | c :: rest, i, best, bd =>
    if |c - v| < bd then scanMin v rest (i + 1) i |c - v|
    else scanMin v rest (i + 1) best bd

/-- Core of `AppState::find_coordinate_index` given the coordinate array:
empty-array check, out-of-range check against the first and last entries,
then the first-argmin scan. -/
def findNearestIndex (coords : List ℚ) (v : ℚ) : Except Err ℕ :=
  match coords with
  | [] => .error .dataNotFound
  | c :: rest =>
    if v < c ∨ v > rest.getLastD c then .error .invalidCoordinates
    else .ok (scanMin v rest 1 0 |c - v|)

/-- `AppState::get_coordinate_checked` from `src/state.rs`. -/
def getCoordinateChecked (st : St) (name : String) : Except Err (List ℚ) :=
  match resolveDimension st name with
  | .error e => .error e
  | .ok fs =>
    match st.coords.lookup fs with
    | some c => .ok c
    | none => .error .dataNotFound

/-- `AppState::find_coordinate_index` from `src/state.rs`: resolve the
dimension, fetch its coordinates, and run the nearest-index kernel. -/
def findCoordinateIndex (st : St) (dimName : String) (v : ℚ) : Except Err ℕ :=
  match resolveDimension st dimName with
  | .error e => .error e
  | .ok _ =>
    match getCoordinateChecked st dimName with
    | .error e => .error e
    | .ok coords => findNearestIndex coords v

/-- Invariant of the first-argmin scan: it either keeps the seed (when no
later distance beats it strictly) or lands on the first strict minimum. -/
theorem scanMin_spec (v : ℚ) :
    ∀ (rest : List ℚ) (i best : ℕ) (bd : ℚ),
      (scanMin v rest i best bd = best
          ∧ ∀ k, ∀ hk : k < rest.length, bd ≤ |rest.get ⟨k, hk⟩ - v|)
        ∨ (∃ k, ∃ hk : k < rest.length,
            scanMin v rest i best bd = i + k
              ∧ |rest.get ⟨k, hk⟩ - v| < bd
              ∧ (∀ j, ∀ hj : j < k,
                  |rest.get ⟨k, hk⟩ - v| < |rest.get ⟨j, Nat.lt_trans hj hk⟩ - v|)
              ∧ (∀ j, ∀ hj : j < rest.length, k < j →
                  |rest.get ⟨k, hk⟩ - v| ≤ |rest.get ⟨j, hj⟩ - v|)) := by
  intro rest
  induction rest with
  | nil =>
    intro i best bd
    left
    exact ⟨rfl, fun k hk => absurd hk (by simp)⟩
  | cons c rest ih =>
    intro i best bd
    by_cases hc : |c - v| < bd
    · rcases ih (i + 1) i |c - v| with ⟨heq, hall⟩ | ⟨k, hk, heq, hlt, hearl, hlater⟩
      · right
        refine ⟨0, by simp, ?_, ?_, ?_, ?_⟩
        · show scanMin v (c :: rest) i best bd = i + 0
          rw [scanMin, if_pos hc, heq]
          omega
        · simpa using hc
        · intro j hj
          exact absurd hj (Nat.not_lt_zero j)
        · intro j hj hjpos
          match j, hj with
          | j' + 1, hj =>
            have := hall j' (by simpa using hj)
            simpa using this
      · right
        refine ⟨k + 1, by simpa using Nat.succ_lt_succ hk, ?_, ?_, ?_, ?_⟩
        · show scanMin v (c :: rest) i best bd = i + (k + 1)
          rw [scanMin, if_pos hc, heq]
          omega
        · calc |(c :: rest).get ⟨k + 1, _⟩ - v| = |rest.get ⟨k, hk⟩ - v| := by simp
            _ < |c - v| := hlt
            _ < bd := hc
        · intro j hj
          match j, hj with
          | 0, _ =>
            calc |(c :: rest).get ⟨k + 1, _⟩ - v| = |rest.get ⟨k, hk⟩ - v| := by simp
              _ < |c - v| := hlt
              _ = |(c :: rest).get ⟨0, _⟩ - v| := by simp
          | j' + 1, hj =>
            have := hearl j' (by omega)
            simpa using this
        · intro j hj hjgt
          match j, hj with
          | j' + 1, hj =>
            have := hlater j' (by simpa using hj) (by omega)
            simpa using this
    · rcases ih (i + 1) best bd with ⟨heq, hall⟩ | ⟨k, hk, heq, hlt, hearl, hlater⟩
      · left
        constructor
        · show scanMin v (c :: rest) i best bd = best
          rw [scanMin, if_neg hc, heq]
        · intro j hj
          match j, hj with
          | 0, _ => simpa using not_lt.mp hc
          | j' + 1, hj =>
            have := hall j' (by simpa using hj)
            simpa using this
      · right
        refine ⟨k + 1, by simpa using Nat.succ_lt_succ hk, ?_, ?_, ?_, ?_⟩
        · show scanMin v (c :: rest) i best bd = i + (k + 1)
          rw [scanMin, if_neg hc, heq]
          omega
        · calc |(c :: rest).get ⟨k + 1, _⟩ - v| = |rest.get ⟨k, hk⟩ - v| := by simp
            _ < bd := hlt
        · intro j hj
          match j, hj with
          | 0, _ =>
            calc |(c :: rest).get ⟨k + 1, _⟩ - v| = |rest.get ⟨k, hk⟩ - v| := by simp
              _ < bd := hlt
              _ ≤ |c - v| := not_lt.mp hc
              _ = |(c :: rest).get ⟨0, _⟩ - v| := by simp
          | j' + 1, hj =>
            have := hearl j' (by omega)
            simpa using this
        · intro j hj hjgt
          match j, hj with
          | j' + 1, hj =>
            have := hlater j' (by simpa using hj) (by omega)
            simpa using this

/-- C6: for a non-empty sorted coordinate array, nearest-index lookup
rejects values outside `[C[0], C[n-1]]` with `InvalidCoordinates`, and
otherwise returns the index minimizing `|C[i] - v|`, with ties going to the
lower index. -/
theorem C6_nearest_index (c0 : ℚ) (rest : List ℚ) (v : ℚ)
    (hsorted : List.Sorted (· ≤ ·) (c0 :: rest)) :
    ((v < c0 ∨ v > rest.getLastD c0) →
        findNearestIndex (c0 :: rest) v = .error .invalidCoordinates)
      ∧ (¬(v < c0 ∨ v > rest.getLastD c0) →
        ∃ i, ∃ hi : i < (c0 :: rest).length,
          findNearestIndex (c0 :: rest) v = .ok i
            ∧ (∀ j, ∀ hj : j < (c0 :: rest).length,
                |(c0 :: rest).get ⟨i, hi⟩ - v| ≤ |(c0 :: rest).get ⟨j, hj⟩ - v|)
            ∧ (∀ j, ∀ hj : j < (c0 :: rest).length,
                |(c0 :: rest).get ⟨j, hj⟩ - v| = |(c0 :: rest).get ⟨i, hi⟩ - v| → i ≤ j)) := by
  constructor
  · intro h
    rw [findNearestIndex, if_pos h]
  · intro h
    rcases scanMin_spec v rest 1 0 (|c0 - v|) with ⟨heq, hall⟩ | ⟨k, hk, heq, hlt, hearl, hlater⟩
    · refine ⟨0, by simp, ?_, ?_, ?_⟩
      · rw [findNearestIndex, if_neg h, heq]
      · intro j hj
        match j, hj with
        | 0, _ => exact le_refl _
        | j' + 1, hj =>
          have := hall j' (by simpa using hj)
          simpa using this
      · intro j hj _
        exact Nat.zero_le j
    · refine ⟨1 + k, ?_, ?_, ?_, ?_⟩
      · simpa using by omega
      · rw [findNearestIndex, if_neg h, heq]
      · intro j hj
        have hik : |(c0 :: rest).get ⟨1 + k, by simpa using by omega⟩ - v|
            = |rest.get ⟨k, hk⟩ - v| := by
          have h1k : 1 + k = k + 1 := by omega
          simp [h1k]
        rw [hik]
        match j, hj with
        | 0, _ =>
          simpa using le_of_lt hlt
        | j' + 1, hj =>
          rcases Nat.lt_trichotomy j' k with hjk | hjk | hjk
          · have := hearl j' hjk
            simpa using le_of_lt this
          · subst hjk
            simp
          · have := hlater j' (by simpa using hj) hjk
            simpa using this
      · intro j hj hjeq
        have hik : |(c0 :: rest).get ⟨1 + k, by simpa using by omega⟩ - v|
            = |rest.get ⟨k, hk⟩ - v| := by
          have h1k : 1 + k = k + 1 := by omega
          simp [h1k]
        rw [hik] at hjeq
        match j, hj with
        | 0, _ =>
          exfalso
          have : |(c0 :: rest).get ⟨0, by simp⟩ - v| = |c0 - v| := by simp
          rw [this] at hjeq
          exact absurd hjeq (ne_of_gt hlt)
        | j' + 1, hj =>
          rcases Nat.lt_trichotomy j' k with hjk | hjk | hjk
          · exfalso
            have hstrict := hearl j' hjk
            have : |(c0 :: rest).get ⟨j' + 1, hj⟩ - v| = |rest.get ⟨j', Nat.lt_trans hjk hk⟩ - v| := by
              simp
            rw [this] at hjeq
            exact absurd hjeq.symm (ne_of_lt hstrict)
          · omega
          · omega

/-- C6 witness: on the sorted array `[0, 2, 3]` with `v = 1` (a tie between
indices 0 and 1 at distance 1), the lookup is defined and the theorem's
conclusion holds; in particular ties go to the lower index. -/
theorem C6_nearest_index_witness :
    List.Sorted (· ≤ ·) [(0 : ℚ), 2, 3]
      ∧ ((((1:ℚ) < 0 ∨ (1:ℚ) > [(2:ℚ), 3].getLastD 0) →
            findNearestIndex [(0:ℚ), 2, 3] 1 = .error .invalidCoordinates)
          ∧ (¬((1:ℚ) < 0 ∨ (1:ℚ) > [(2:ℚ), 3].getLastD 0) →
            ∃ i, ∃ hi : i < ([(0:ℚ), 2, 3]).length,
              findNearestIndex [(0:ℚ), 2, 3] 1 = .ok i
                ∧ (∀ j, ∀ hj : j < ([(0:ℚ), 2, 3]).length,
                    |([(0:ℚ), 2, 3]).get ⟨i, hi⟩ - 1| ≤ |([(0:ℚ), 2, 3]).get ⟨j, hj⟩ - 1|)
                ∧ (∀ j, ∀ hj : j < ([(0:ℚ), 2, 3]).length,
                    |([(0:ℚ), 2, 3]).get ⟨j, hj⟩ - 1| = |([(0:ℚ), 2, 3]).get ⟨i, hi⟩ - 1| → i ≤ j))) :=
  ⟨by decide, C6_nearest_index 0 [2, 3] 1 (by decide)⟩

/-- One axis operation over a row-major array, the semantics of ndarray's
`slice_axis`/`index_axis` as used by `extract_variable_data` in
`src/handlers/data.rs`: from each of `outer` consecutive blocks of
`blockLen` elements, keep the `chunkLen` elements starting at
`chunkStart`. -/
def sliceBlocks (chunkStart chunkLen blockLen : ℕ) : ℕ → List ℚ → List ℚ
  | 0, _ => []
  | outer + 1, data =>
    (data.drop chunkStart).take chunkLen
      ++ sliceBlocks chunkStart chunkLen blockLen outer (data.drop blockLen)

/-- ndarray `slice_axis(Axis(ax), a..=b)` on a row-major `(shape, data)`
pair. -/
def sliceAxisP (shape : List ℕ) (data : List ℚ) (ax a b : ℕ) : List ℕ × List ℚ :=
  (shape.set ax (b + 1 - a),
    sliceBlocks (a * (shape.drop (ax + 1)).prod)
      ((b + 1 - a) * (shape.drop (ax + 1)).prod)
      (shape.getD ax 1 * (shape.drop (ax + 1)).prod)
      (shape.take ax).prod data)

/-- ndarray `index_axis(Axis(ax), i)`: keep the single index and remove the
axis. -/
def indexAxisP (shape : List ℕ) (data : List ℚ) (ax i : ℕ) : List ℕ × List ℚ :=
  (shape.take ax ++ shape.drop (ax + 1),
    sliceBlocks (i * (shape.drop (ax + 1)).prod)
      ((shape.drop (ax + 1)).prod)
      (shape.getD ax 1 * (shape.drop (ax + 1)).prod)
      (shape.take ax).prod data)

/-- Loop body of `extract_variable_data` from `src/handlers/data.rs`: walk
the variable's axes from last to first; a selected `(start, end)` range
with `start == end` contracts the axis via `index_axis`, otherwise
`slice_axis` keeps the inclusive slab; unselected axes are untouched. -/
def evdLoop (R : String → Option (ℕ × ℕ)) :
    List (ℕ × String) → List ℕ × List ℚ → List ℕ × List ℚ
  | [], cur => cur
  | (i, d) :: rest, cur =>
    match R d with
    | none => evdLoop R rest cur
    | some (a, b) =>
      if a = b then evdLoop R rest (indexAxisP cur.1 cur.2 i a)
      else evdLoop R rest (sliceAxisP cur.1 cur.2 i a b)

/-- Position enumeration starting at `n` (models `.iter().enumerate()`). -/
def enumFromQ (n : ℕ) : List String → List (ℕ × String)
  | [] => []
  | d :: ds => (n, d) :: enumFromQ (n + 1) ds

/-- `extract_variable_data` from `src/handlers/data.rs`, given the
variable's dimension names, its shape, its row-major data, and the
selected-ranges lookup (`selected_ranges.get(dim_name)`). -/
def extractVariableData (dims : List String) (shape : List ℕ) (data : List ℚ)
    (R : String → Option (ℕ × ℕ)) : List ℕ × List ℚ :=
  evdLoop R (enumFromQ 0 dims).reverse (shape, data)

theorem sliceBlocks_id (blockLen : ℕ) :
    ∀ (outer : ℕ) (data : List ℚ), data.length = outer * blockLen →
      sliceBlocks 0 blockLen blockLen outer data = data := by
  intro outer
  induction outer with
  | zero =>
    intro data hd
    simp at hd
    subst hd
    rfl
  | succ outer ih =>
    intro data hd
    rw [sliceBlocks, List.drop_zero]
    rw [ih (data.drop blockLen) (by simp [hd, Nat.succ_mul])]
    exact List.take_append_drop blockLen data

theorem list_set_get (s : List ℕ) :
    ∀ (i : ℕ), ∀ h : i < s.length, s.set i (s.get ⟨i, h⟩) = s := by
  induction s with
  | nil => intro i h; exact absurd h (by simp)
  | cons x xs ih =>
    intro i h
    match i with
    | 0 => rfl
    | i' + 1 =>
      show x :: xs.set i' (xs.get ⟨i', _⟩) = x :: xs
      rw [ih i' (by simpa using h)]

theorem prod_split_at (s : List ℕ) (ax : ℕ) (h : ax < s.length) :
    s.prod = (s.take ax).prod * (s.get ⟨ax, h⟩ * (s.drop (ax + 1)).prod) := by
  conv_lhs => rw [← List.take_append_drop ax s]
  rw [List.prod_append, List.drop_eq_get_cons h, List.prod_cons]

/-- A full-range `slice_axis` is the identity on well-formed arrays. -/
theorem sliceAxisP_full (shape : List ℕ) (data : List ℚ) (ax : ℕ)
    (h : ax < shape.length) (hn : 1 ≤ shape.get ⟨ax, h⟩)
    (hd : data.length = shape.prod) :
    sliceAxisP shape data ax 0 (shape.get ⟨ax, h⟩ - 1) = (shape, data) := by
  rw [sliceAxisP]
  have hg : shape.getD ax 1 = shape.get ⟨ax, h⟩ := List.getD_eq_get shape 1 h
  have hsub : shape.get ⟨ax, h⟩ - 1 + 1 - 0 = shape.get ⟨ax, h⟩ := by omega
  rw [hg, hsub, list_set_get shape ax h]
  congr 1
  rw [Nat.zero_mul]
  exact sliceBlocks_id _ _ data (by rw [hd, prod_split_at shape ax h])

/-- Contracting a size-1 axis at index 0 removes the axis and keeps the
data. -/
theorem indexAxisP_one (shape : List ℕ) (data : List ℚ) (ax : ℕ)
    (h : ax < shape.length) (hn : shape.get ⟨ax, h⟩ = 1)
    (hd : data.length = shape.prod) :
    indexAxisP shape data ax 0 = (shape.take ax ++ shape.drop (ax + 1), data) := by
  rw [indexAxisP]
  have hg : shape.getD ax 1 = shape.get ⟨ax, h⟩ := List.getD_eq_get shape 1 h
  congr 1
  rw [Nat.zero_mul, hg, hn, Nat.one_mul]
  exact sliceBlocks_id _ _ data (by rw [hd, prod_split_at shape ax h, hn]; ring)

theorem enumFromQ_append (d : String) :
    ∀ (ds : List String) (n : ℕ),
      enumFromQ n (ds ++ [d]) = enumFromQ n ds ++ [(n + ds.length, d)] := by
  intro ds
  induction ds with
  | nil => intro n; simp [enumFromQ]
  | cons x xs ih =>
    intro n
    show (n, x) :: enumFromQ (n + 1) (xs ++ [d]) = (n, x) :: enumFromQ (n + 1) xs ++ _
    rw [ih (n + 1)]
    simp
    omega

theorem takeGetD (s : List ℕ) (k i : ℕ) (hik : i < k) (hk : k ≤ s.length) :
    (s.take k).getD i 0 = s.getD i 0 := by
  have hi : i < s.length := lt_of_lt_of_le hik hk
  have hit : i < (s.take k).length := by simp; omega
  rw [List.getD_eq_get _ _ hit, List.getD_eq_get _ _ hi]
  exact (List.get_take s hi hik).symm

/-- With a full range on every axis, the extraction loop removes exactly
the size-1 axes on the covered front segment and never changes the data. -/
theorem evdLoop_full (R : String → Option (ℕ × ℕ)) :
    ∀ (ds : List String) (s : List ℕ) (data : List ℚ),
      ds.length ≤ s.length →
      data.length = s.prod →
      (∀ n ∈ s, 1 ≤ n) →
      (∀ i, i < ds.length → R (ds.getD i "") = some (0, s.getD i 0 - 1)) →
      evdLoop R (enumFromQ 0 ds).reverse (s, data)
        = ((s.take ds.length).filter (fun n => n ≠ 1) ++ s.drop ds.length, data) := by
  intro ds
  induction ds using List.reverseRecOn with
  | nil =>
    intro s data _ _ _ _
    simp [evdLoop, enumFromQ]
  | append_singleton init d ih =>
    intro s data hlen hdata hpos hR
    have hk : init.length < s.length := by
      have := hlen
      simp at this
      omega
    have hkd : (init ++ [d]).getD init.length "" = d := by
      rw [List.getD_append_right init [d] "" init.length (le_refl _)]
      simp
    have hn := hpos (s.get ⟨init.length, hk⟩) (s.get_mem _ _)
    have hsval : s.getD init.length 0 = s.get ⟨init.length, hk⟩ :=
      List.getD_eq_get s 0 hk
    have hRd : R d = some (0, s.get ⟨init.length, hk⟩ - 1) := by
      have := hR init.length (by simp)
      rw [hkd, hsval] at this
      exact this
    rw [enumFromQ_append, List.reverse_append]
    simp only [List.reverse_singleton, List.singleton_append, Nat.zero_add]
    rw [evdLoop, hRd]
    dsimp only
    by_cases h1 : s.get ⟨init.length, hk⟩ = 1
    · have hzero : (0 : ℕ) = s.get ⟨init.length, hk⟩ - 1 := by omega
      rw [if_pos hzero]
      have hstep := indexAxisP_one s data init.length hk h1 hdata
      simp only [hstep]
      have hlen' : init.length ≤ (s.take init.length ++ s.drop (init.length + 1)).length := by
        simp
        omega
      have hdata' : data.length = (s.take init.length ++ s.drop (init.length + 1)).prod := by
        rw [List.prod_append, hdata, prod_split_at s init.length hk, h1]
        ring
      have hpos' : ∀ n ∈ s.take init.length ++ s.drop (init.length + 1), 1 ≤ n := by
        intro n hm
        rcases List.mem_append.mp hm with hm | hm
        · exact hpos n (List.take_subset _ _ hm)
        · exact hpos n (List.drop_subset _ _ hm)
      have hR' : ∀ i, i < init.length →
          R (init.getD i "") = some (0, (s.take init.length ++ s.drop (init.length + 1)).getD i 0 - 1) := by
        intro i hi
        have h1' : (init ++ [d]).getD i "" = init.getD i "" :=
          List.getD_append _ _ _ _ (by omega)
        have h2' : (s.take init.length ++ s.drop (init.length + 1)).getD i 0 = s.getD i 0 := by
          rw [List.getD_append _ _ _ _ (by simp; omega)]
          exact takeGetD s init.length i hi (le_of_lt hk)
        rw [h2']
        have := hR i (by simp; omega)
        rw [h1'] at this
        exact this
      rw [ih _ data hlen' hdata' hpos' hR']
      have hAlen : (s.take init.length).length = init.length := by simp; omega
      have htake : (s.take init.length ++ s.drop (init.length + 1)).take init.length
          = s.take init.length := by
        rw [List.take_append_eq_append_take]
        simp [hAlen, List.take_take]
      have hdrop : (s.take init.length ++ s.drop (init.length + 1)).drop init.length
          = s.drop (init.length + 1) := by
        rw [List.drop_append_eq_append_drop]
        simp [hAlen, List.drop_eq_nil_of_le]
      rw [htake, hdrop]
      have htake1 : s.take (init.length + 1) = s.take init.length ++ [1] := by
        rw [List.take_succ]
        congr 1
        have hq : s[init.length]? = some (1 : ℕ) := by
          rw [List.getElem?_eq_getElem hk]
          rw [List.get_eq_getElem] at h1
          exact congrArg some h1
        rw [hq]
        rfl
      simp [htake1, List.filter_append]
    · have hzero : ¬((0 : ℕ) = s.get ⟨init.length, hk⟩ - 1) := by omega
      rw [if_neg hzero]
      have hstep := sliceAxisP_full s data init.length hk hn hdata
      simp only [hstep]
      have hR' : ∀ i, i < init.length → R (init.getD i "") = some (0, s.getD i 0 - 1) := by
        intro i hi
        have h1' : (init ++ [d]).getD i "" = init.getD i "" :=
          List.getD_append _ _ _ _ (by omega)
        have := hR i (by simp; omega)
        rw [h1'] at this
        exact this
      rw [ih s data (le_of_lt hk) hdata hpos hR']
      have htake1 : s.take (init.length + 1) = s.take init.length ++ [s.get ⟨init.length, hk⟩] := by
        rw [List.take_succ]
        congr 1
        have hq : s[init.length]? = some (s.get ⟨init.length, hk⟩) := by
          rw [List.getElem?_eq_getElem hk]
          exact congrArg some (List.get_eq_getElem s ⟨init.length, hk⟩).symm
        rw [hq]
        rfl
      have hdropc : s.drop init.length = s.get ⟨init.length, hk⟩ :: s.drop (init.length + 1) :=
        List.drop_eq_get_cons hk
      simp only [List.length_append, List.length_singleton]
      rw [htake1, hdropc, List.filter_append]
      have h1e : ¬s[init.length] = 1 := by
        rw [List.get_eq_getElem] at h1
        exact h1
      simp [h1e]

/-- C3 counterexample: a variable of shape `[1, 2]` extracted with no
selectors (full ranges on both axes) comes back with shape `[2]` — the
size-1 axis is contracted because its full range has `start == end`, so the
result shape is not `shape(v)`. The element count is preserved. -/
theorem C3_counterexample :
    extractVariableData ["a", "b"] [1, 2] [7, 9]
        (fun d => if d = "a" then some (0, 0) else if d = "b" then some (0, 1) else none)
      = ([2], [7, 9])
      ∧ ([2] : List ℕ) ≠ [1, 2] :=
  ⟨by with_unfolding_all rfl, by decide⟩

/-- C3 (amended): hyperslab extraction with no dimension selectors (every
axis taken in full) returns the source data unchanged — hence the same
element count — with a shape equal to `shape(v)` after removing every axis
of size 1; axes of size ≥ 2 are kept in full. -/
theorem C3_full_extraction (dims : List String) (shape : List ℕ) (data : List ℚ)
    (R : String → Option (ℕ × ℕ))
    (hlen : dims.length = shape.length)
    (hdata : data.length = shape.prod)
    (hpos : ∀ n ∈ shape, 1 ≤ n)
    (hR : ∀ i, i < dims.length → R (dims.getD i "") = some (0, shape.getD i 0 - 1)) :
    extractVariableData dims shape data R = (shape.filter (fun n => n ≠ 1), data) := by
  rw [extractVariableData,
    evdLoop_full R dims shape data (le_of_eq hlen) hdata hpos hR, hlen]
  simp

/-- Full-range lookup used by the C3 witness. -/
def fullR0 : String → Option (ℕ × ℕ) :=
  fun d => if d = "x" then some (0, 0) else if d = "y" then some (0, 1) else none

/-- C3 witness: the amended statement evaluated on the concrete variable
with dims `["x", "y"]`, shape `[1, 2]`, data `[7, 9]`. -/
theorem C3_full_extraction_witness :
    (["x", "y"] : List String).length = ([1, 2] : List ℕ).length
      ∧ ([7, 9] : List ℚ).length = ([1, 2] : List ℕ).prod
      ∧ (∀ n ∈ ([1, 2] : List ℕ), 1 ≤ n)
      ∧ (∀ i, i < (["x", "y"] : List String).length →
          fullR0 ((["x", "y"] : List String).getD i "") = some (0, ([1, 2] : List ℕ).getD i 0 - 1))
      ∧ extractVariableData ["x", "y"] [1, 2] [7, 9] fullR0
          = (([1, 2] : List ℕ).filter (fun n => n ≠ 1), [7, 9]) :=
  ⟨by decide, by decide, by decide, by decide,
    C3_full_extraction ["x", "y"] [1, 2] [7, 9] fullR0 (by decide) (by decide) (by decide)
      (by decide)⟩

/-- Dimension selectors (`DimensionSelector` in `src/handlers/data.rs`).
The inclusive `(start, end)` pairs are carried as `lo`/`hi` (`end` is a
Lean keyword). -/
inductive Selector where
  | singleValue (dimension : String) (value : ℚ) : Selector
  | valueRange (dimension : String) (lo hi : ℚ) : Selector
  | singleIndex (dimension : String) (index : ℕ) : Selector
  | indexRange (dimension : String) (lo hi : ℕ) : Selector
deriving Repr, DecidableEq

/-- `HashMap::insert`: replace an existing binding in place, else append. -/
def upsert {α : Type} : List (String × α) → String → α → List (String × α)
  | [], k, v => [(k, v)]
  | (k', v') :: rest, k, v =>
    if k' = k then (k, v) :: rest else (k', v') :: upsert rest k v

/-- Rust `coords[a..=b]` (total model: drop `a`, take `b + 1 - a`). -/
def sliceIncl (l : List ℚ) (a b : ℕ) : List ℚ :=
  (l.drop a).take (b + 1 - a)

/-- One step of the selector loop shared verbatim by
`extract_and_format_data` and `create_json_stream` in
`src/handlers/data.rs`: fill the `dim → (start, end)` map and the parallel
coordinate arrays, validating raw indices against the coordinate length. -/
def processSelector (st : St)
    (acc : List (String × (ℕ × ℕ)) × List (String × List ℚ)) :
    Selector → Except Err (List (String × (ℕ × ℕ)) × List (String × List ℚ))
  | .singleValue d v =>
    match findCoordinateIndex st d v with
    | .error e => .error e
    | .ok idx =>
      match getCoordinateChecked st d with
      | .error e => .error e
      | .ok coords => .ok (upsert acc.1 d (idx, idx), upsert acc.2 d [coords.getD idx 0])
  | .valueRange d a b =>
    match findCoordinateIndex st d a with
    | .error e => .error e
    | .ok i =>
      match findCoordinateIndex st d b with
      | .error e => .error e
      | .ok j =>
        match getCoordinateChecked st d with
        | .error e => .error e
        | .ok coords => .ok (upsert acc.1 d (i, j), upsert acc.2 d (sliceIncl coords i j))
  | .singleIndex d i =>
    match getCoordinateChecked st d with
    | .error e => .error e
    | .ok coords =>
      if i ≥ coords.length then .error .indexOutOfBounds
      else .ok (upsert acc.1 d (i, i), upsert acc.2 d [coords.getD i 0])
  | .indexRange d a b =>
    match getCoordinateChecked st d with
    | .error e => .error e
    | .ok coords =>
      if a ≥ coords.length ∨ b ≥ coords.length then .error .indexOutOfBounds
      else .ok (upsert acc.1 d (a, b), upsert acc.2 d (sliceIncl coords a b))

/-- The selector loop, folded over the parsed selectors. -/
def processSelectors (st : St) :
    List Selector → List (String × (ℕ × ℕ)) × List (String × List ℚ) →
    Except Err (List (String × (ℕ × ℕ)) × List (String × List ℚ))
  | [], acc => .ok acc
  | sel :: rest, acc =>
    match processSelector st acc sel with
    | .error e => .error e
    | .ok acc' => processSelectors st rest acc'

/-- Fill step of `extract_and_format_data`/`create_json_stream`: every
dimension of the dataset not constrained by a selector is taken in full,
with its coordinate array or a synthesized index ramp. -/
def fillUnselected (st : St) :
    List (String × ℕ) → List (String × (ℕ × ℕ)) × List (String × List ℚ) →
    List (String × (ℕ × ℕ)) × List (String × List ℚ)
  | [], acc => acc
  | (d, sz) :: rest, acc =>
    if (acc.1.lookup d).isSome then fillUnselected st rest acc
    else
      fillUnselected st rest
        (upsert acc.1 d (0, sz - 1),
          upsert acc.2 d
            (match st.coords.lookup d with
              | some c => c
              | none => (List.range sz).map (fun i => (i : ℚ))))

/-- Selector processing followed by the fill step, shared by the Arrow and
JSON paths of `src/handlers/data.rs`. -/
def buildRanges (st : St) (selectors : List Selector) :
    Except Err (List (String × (ℕ × ℕ)) × List (String × List ℚ)) :=
  match processSelectors st selectors ([], []) with
  | .error e => .error e
  | .ok acc => .ok (fillUnselected st st.dims acc)

/-- The budget count of `extract_and_format_data`/`create_json_stream`:
the product of the coordinate-array lengths over every dimension of the
dataset. -/
def totalPoints (ca : List (String × List ℚ)) : ℕ :=
  (ca.map (fun p => p.2.length)).prod

/-- `AppState::get_variable_checked` from `src/state.rs`. -/
def getVariableChecked (st : St) (name : String) : Except Err (List ℚ) :=
  match st.data.lookup name with
  | some d => .ok d
  | none => .error .dataNotFound

/-- `AppState::get_variable_metadata_checked` from `src/state.rs`. -/
def getVariableMetadataChecked (st : St) (name : String) : Except Err VarMeta :=
  match st.vars.lookup name with
  | some m => .ok m
  | none => .error .dataNotFound

/-- Per-variable extraction loop of `extract_and_format_data`. -/
def extractVars (st : St) (R : String → Option (ℕ × ℕ)) :
    List String → Except Err (List (List ℕ × List ℚ))
  | [] => .ok []
  | v :: rest =>
    match getVariableChecked st v with
    | .error e => .error e
    | .ok data =>
      match getVariableMetadataChecked st v with
      | .error e => .error e
      | .ok meta =>
        match extractVars st R rest with
        | .error e => .error e
        | .ok tail => .ok (extractVariableData meta.dimensions meta.shape data R :: tail)

/-- `extract_and_format_data` from `src/handlers/data.rs` up to (but not
including) the Arrow encoding: build the selected ranges, enforce the
budget, then extract each requested variable. -/
def extractAndFormatCore (st : St) (vs : List String) (selectors : List Selector) :
    Except Err (List (List ℕ × List ℚ)) :=
  match buildRanges st selectors with
  | .error e => .error e
  | .ok (ranges, ca) =>
    if totalPoints ca > st.maxDataPoints then
      .error (.payloadTooLarge (totalPoints ca) st.maxDataPoints)
    else extractVars st (fun d => ranges.lookup d) vs

/-- The C4 claim's budget count: the product of `(end - start + 1)` over
the dimensions of the first requested variable only. Second definition for
comparison with `totalPoints`. -/
def claimTotalPoints (ranges : List (String × (ℕ × ℕ))) (dims : List String) : ℕ :=
  (dims.map (fun d =>
    match ranges.lookup d with
    | some (a, b) => b + 1 - a
    | none => 1)).prod

/-- Concrete dataset for C4: three dataset dimensions but a first variable
spanning only two of them, with `max_data_points = 10`. -/
def st4 : St :=
  { dims := [("time", 5), ("lat", 3), ("lon", 4)]
    aliasesRev := []
    coords := []
    vars := [("v2d", ⟨["lat", "lon"], [3, 4], []⟩)]
    data := [("v2d", (List.range 12).map (fun n => (n : ℚ)))]
    maxDataPoints := 10 }

/-- Selected ranges `st4` produces with no selectors. -/
def r4val : List (String × (ℕ × ℕ)) :=
  [("time", (0, 4)), ("lat", (0, 2)), ("lon", (0, 3))]

/-- Coordinate arrays `st4` produces with no selectors (index ramps, since
`st4` carries no explicit coordinate variables). -/
def ca4val : List (String × List ℚ) :=
  [("time", [0, 1, 2, 3, 4]), ("lat", [0, 1, 2]), ("lon", [0, 1, 2, 3])]

/-- C4 counterexample: with no selectors on `st4`, the code rejects the
request with `PayloadTooLarge{requested: 60, max_allowed: 10}` — the
product over all three dataset dimensions — whereas the claim's
`total_points`, the product over the first variable's dimensions
`[lat, lon]`, is `12`; the carried `requested` count is not the claim's
count. -/
theorem C4_counterexample :
    extractAndFormatCore st4 ["v2d"] [] = .error (.payloadTooLarge 60 10)
      ∧ claimTotalPoints r4val ["lat", "lon"] = 12
      ∧ (60 : ℕ) ≠ 12 :=
  ⟨by with_unfolding_all rfl, by with_unfolding_all rfl, by decide⟩

/-- C4 (amended): the budget check computes `total_points` as the product
of the selected lengths over all dimensions of the dataset (`end-start+1`
for constrained dimensions, the full size otherwise); whenever that count
exceeds `config.max_data_points` the request is rejected with
`PayloadTooLarge` carrying that count and the configured maximum, before
any per-variable extraction runs (the rejection does not depend on the
requested variable list). -/
theorem C4_budget_all_dims (st : St) (vs : List String) (selectors : List Selector)
    (ranges : List (String × (ℕ × ℕ))) (ca : List (String × List ℚ))
    (hbuild : buildRanges st selectors = .ok (ranges, ca))
    (hover : totalPoints ca > st.maxDataPoints) :
    extractAndFormatCore st vs selectors
      = .error (.payloadTooLarge (totalPoints ca) st.maxDataPoints) := by
  unfold extractAndFormatCore
  rw [hbuild]
  dsimp only
  rw [if_pos hover]

/-- C4 witness: the amended statement evaluated on `st4` with no selectors
and one requested variable. -/
theorem C4_budget_all_dims_witness :
    buildRanges st4 [] = .ok (r4val, ca4val)
      ∧ totalPoints ca4val > st4.maxDataPoints
      ∧ extractAndFormatCore st4 ["v2d"] []
          = .error (.payloadTooLarge (totalPoints ca4val) st4.maxDataPoints) :=
  ⟨by with_unfolding_all rfl, by with_unfolding_all decide,
    C4_budget_all_dims st4 ["v2d"] [] r4val ca4val (by with_unfolding_all rfl)
      (by with_unfolding_all decide)⟩

/-- Digit-string parsing (models `str::parse::<usize>` for plain decimal
numerals, the only form the handler receives from the claims' requests). -/
def digitsToNat (cs : List Char) : Option ℕ :=
  if cs ≠ [] ∧ cs.all (fun c => c.isDigit) then
    some (cs.foldl (fun a c => a * 10 + (c.toNat - 48)) 0)
  else none

/-- `str::parse::<usize>` on a plain decimal numeral. -/
def parseNatQ (s : String) : Option ℕ :=
  digitsToNat s.toList

/-- Unsigned decimal with an optional fractional part. -/
def parseDecimal (cs : List Char) : Option ℚ :=
  match cs.splitOn '.' with
  | [ip] => (digitsToNat ip).map (fun n => (n : ℚ))
  | [ip, fp] =>
    match digitsToNat ip, digitsToNat fp with
    | some n, some f => some ((n : ℚ) + (f : ℚ) / ((10 : ℚ) ^ fp.length))
    | _, _ => none
  | _ => none

/-- `str::parse::<f64>` modelled exactly over ℚ for plain decimal numerals
with an optional sign and fractional part. -/
def parseNumQ (s : String) : Option ℚ :=
  match s.toList with
  | '-' :: cs => (parseDecimal cs).map (fun q => -q)
  | cs => parseDecimal cs

/-- `AppState::get_canonical_dimension_name` from `src/state.rs`: the first
canonical name in the (iteration-ordered) alias map whose file-specific
target matches. -/
def getCanonicalDimensionName (st : St) (fileSpecific : String) : Option String :=
  match st.aliasesRev.find? (fun p => p.2 == fileSpecific) with
  | some p => some p.1
  | none => none

/-- `__<canonical>_index_range=a,b` branch of
`process_dimension_constraints` (`src/handlers/data.rs`); an unmatched or
unresolvable key falls through to "unrecognized parameter, ignored". -/
def processParamIdxRange (st : St) (k v : String) : Except Err (List Selector) :=
  if k.startsWith "__" ∧ (k.drop 2).endsWith "_index_range" then
    match getCanonicalDimensionName st ((k.drop 2).dropRight 12) with
    | some canonical =>
      match resolveDimension st canonical with
      | .ok fs =>
        match v.splitOn "," with
        | [sa, sb] =>
          match parseNatQ sa.trim, parseNatQ sb.trim with
          | some a, some b => .ok [.indexRange fs a b]
          | _, _ => .error .invalidParameter
        | _ => .error .invalidParameter
      | .error _ => .ok []
    | none => .ok []
  else .ok []

/-- `__<canonical>_index=i` branch of `process_dimension_constraints`;
falls through to the index-range branch when it does not apply. -/
def processParamIdx (st : St) (k v : String) : Except Err (List Selector) :=
  if k.startsWith "__" ∧ (k.drop 2).endsWith "_index" then
    match getCanonicalDimensionName st ((k.drop 2).dropRight 6) with
    | some canonical =>
      match resolveDimension st canonical with
      | .ok fs =>
        match parseNatQ v with
        | some i => .ok [.singleIndex fs i]
        | none => .error .invalidParameter
      | .error _ => processParamIdxRange st k v
    | none => processParamIdxRange st k v
  else processParamIdxRange st k v

/-- `<dim>_range=a,b` branch of `process_dimension_constraints`; falls
through to the raw-index branches when the base name does not resolve. -/
def processParamRange (st : St) (k v : String) : Except Err (List Selector) :=
  if k.endsWith "_range" then
    match resolveDimension st (k.dropRight 6) with
    | .ok fs =>
      match v.splitOn "," with
      | [sa, sb] =>
        match parseNumQ sa.trim, parseNumQ sb.trim with
        | some a, some b => .ok [.valueRange fs a b]
        | _, _ => .error .invalidParameter
      | _ => .error .invalidParameter
    | .error _ => processParamIdx st k v
  else processParamIdx st k v

/-- One query parameter of `process_dimension_constraints` from
`src/handlers/data.rs`, in the source's branch order: (1) a key resolving
as a dimension is a single physical value; (2) the literal key
`time_index` resolves `time`, then `t`, then falls back to the first
dimension in the table's iteration order; (3) `<dim>_range`; (4)
`__<canonical>_index`; (5) `__<canonical>_index_range`; anything else is
ignored. -/
def processParam (st : St) (k v : String) : Except Err (List Selector) :=
  match resolveDimension st k with
  | .ok fs =>
    match parseNumQ v with
    | some q => .ok [.singleValue fs q]
    | none => .error .invalidParameter
  | .error _ =>
    if k = "time_index" then
      match parseNatQ v with
      | none => .error .invalidParameter
      | some i =>
        match resolveDimension st "time" with
        | .ok td => .ok [.singleIndex td i]
        | .error _ =>
          match resolveDimension st "t" with
          | .ok td => .ok [.singleIndex td i]
          | .error _ =>
            match st.dims with
            | [] => .ok []
            | (d, _) :: _ => .ok [.singleIndex d i]
    else processParamRange st k v

/-- `process_dimension_constraints` from `src/handlers/data.rs`, folded
over the query parameters in the `HashMap`'s iteration order. -/
def processDimensionConstraints (st : St) :
    List (String × String) → Except Err (List Selector)
  | [] => .ok []
  | (k, v) :: rest =>
    match processParam st k v with
    | .error e => .error e
    | .ok sels =>
      match processDimensionConstraints st rest with
      | .error e => .error e
      | .ok more => .ok (sels ++ more)

/-- Dataset for the C10 counterexample: no time dimension, but a literal
dimension named `time_index`. -/
def st10 : St :=
  { dims := [("a", 2), ("time_index", 7)]
    aliasesRev := []
    coords := []
    vars := []
    data := []
    maxDataPoints := 0 }

/-- C10 counterexample: on a dataset whose dimension table is non-empty and
has no dimension resolvable as `time` or `t`, but which contains a literal
dimension named `time_index`, the parameter `time_index=3` is captured by
the single-physical-value branch — it becomes `SingleValue("time_index",
3.0)` on that dimension, not a single-index selector on the first dimension
`a` as the claim states. -/
theorem C10_counterexample :
    processDimensionConstraints st10 [("time_index", "3")]
        = .ok [.singleValue "time_index" 3]
      ∧ ([Selector.singleValue "time_index" 3] ≠ [Selector.singleIndex "a" 3]) :=
  ⟨by with_unfolding_all rfl, by with_unfolding_all decide⟩

/-- C10 (amended): on a dataset whose dimension table is non-empty, in
which neither `time` nor `t` nor the literal name `time_index` resolves as
a dimension, a legacy `time_index=i` selector neither fails nor is ignored:
it is silently applied as a single-index selector to the first dimension in
the dimension table's iteration order. -/
theorem C10_fallback_first_dim (st : St) (d0 : String) (n0 : ℕ)
    (restDims : List (String × ℕ)) (s : String) (i : ℕ)
    (hdims : st.dims = (d0, n0) :: restDims)
    (hti : (resolveDimension st "time_index").isOk = false)
    (ht : (resolveDimension st "time").isOk = false)
    (ht2 : (resolveDimension st "t").isOk = false)
    (hparse : parseNatQ s = some i) :
    processDimensionConstraints st [("time_index", s)] = .ok [.singleIndex d0 i] := by
  have hres : ∃ e, resolveDimension st "time_index" = .error e := by
    cases h : resolveDimension st "time_index" with
    | ok fs => rw [h] at hti; simp [Except.isOk, Except.toBool] at hti
    | error e => exact ⟨e, rfl⟩
  obtain ⟨e0, hres⟩ := hres
  have hrest : ∃ e, resolveDimension st "time" = .error e := by
    cases h : resolveDimension st "time" with
    | ok fs => rw [h] at ht; simp [Except.isOk, Except.toBool] at ht
    | error e => exact ⟨e, rfl⟩
  obtain ⟨e1, hrest⟩ := hrest
  have hrest2 : ∃ e, resolveDimension st "t" = .error e := by
    cases h : resolveDimension st "t" with
    | ok fs => rw [h] at ht2; simp [Except.isOk, Except.toBool] at ht2
    | error e => exact ⟨e, rfl⟩
  obtain ⟨e2, hrest2⟩ := hrest2
  simp [processDimensionConstraints, processParam, hres, hrest, hrest2, hparse, hdims]

/-- Dataset for the C10 witness: a single dimension `a` and nothing else. -/
def st10w : St :=
  { dims := [("a", 2)]
    aliasesRev := []
    coords := []
    vars := []
    data := []
    maxDataPoints := 0 }

/-- C10 witness: the amended statement evaluated on `st10w` with
`time_index=3`; the selector lands on the first (and only) dimension. -/
theorem C10_fallback_first_dim_witness :
    st10w.dims = ("a", 2) :: []
      ∧ (resolveDimension st10w "time_index").isOk = false
      ∧ (resolveDimension st10w "time").isOk = false
      ∧ (resolveDimension st10w "t").isOk = false
      ∧ parseNatQ "3" = some 3
      ∧ processDimensionConstraints st10w [("time_index", "3")]
          = .ok [.singleIndex "a" 3] :=
  ⟨rfl, by with_unfolding_all rfl, by with_unfolding_all rfl, by with_unfolding_all rfl,
    by with_unfolding_all rfl,
    C10_fallback_first_dim st10w "a" 2 [] "3" 3 rfl (by with_unfolding_all rfl)
      (by with_unfolding_all rfl) (by with_unfolding_all rfl) (by with_unfolding_all rfl)⟩

/-- First numeric attribute lookup (`_FillValue`/`scale_factor`/
`add_offset` handling in `create_json_stream`, `src/handlers/data.rs`). -/
def attrNumber (attrs : List (String × AttrValue)) (key : String) : Option ℚ :=
  match attrs.lookup key with
  | some (.number q) => some q
  | _ => none

/-- Value emission of `create_json_stream`: a raw value equal to
`_FillValue` becomes JSON `null` (here `none`); otherwise the emitted
number is `raw * scale_factor + add_offset`. -/
def jsonValues (data : List ℚ) (fill : Option ℚ) (scale addoff : ℚ) : List (Option ℚ) :=
  data.map (fun v =>
    match fill with
    | some f => if v = f then none else some (v * scale + addoff)
    | none => some (v * scale + addoff))

/-- Per-variable content of the JSON response of `create_json_stream`:
the extracted array's shape (reported in `metadata.shapes`) and its
flattened, fill/scale/offset-processed values (the `data` section). -/
def jsonVars (st : St) (R : String → Option (ℕ × ℕ)) :
    List String → Except Err (List (List ℕ) × List (List (Option ℚ)))
  | [] => .ok ([], [])
  | v :: rest =>
    match getVariableChecked st v with
    | .error e => .error e
    | .ok data =>
      match getVariableMetadataChecked st v with
      | .error e => .error e
      | .ok meta =>
        match jsonVars st R rest with
        | .error e => .error e
        | .ok (shapes, datas) =>
          .ok ((extractVariableData meta.dimensions meta.shape data R).1 :: shapes,
            jsonValues (extractVariableData meta.dimensions meta.shape data R).2
              (attrNumber meta.attributes "_FillValue")
              ((attrNumber meta.attributes "scale_factor").getD 1)
              ((attrNumber meta.attributes "add_offset").getD 0) :: datas)

/-- `create_json_stream` from `src/handlers/data.rs` at value level: build
the selected ranges, enforce the budget, then emit each variable's shape
and processed values. The layout parameter only affects the reported
dimension-name order, not the shapes or the data, and is not modelled. -/
def createJsonCore (st : St) (vs : List String) (selectors : List Selector) :
    Except Err (List (List ℕ) × List (List (Option ℚ))) :=
  match buildRanges st selectors with
  | .error e => .error e
  | .ok (ranges, ca) =>
    if totalPoints ca > st.maxDataPoints then
      .error (.payloadTooLarge (totalPoints ca) st.maxDataPoints)
    else jsonVars st (fun d => ranges.lookup d) vs

/-- `process_data_query_json` from `src/handlers/data.rs` at value level:
variable validation, dimension-constraint parsing, then the JSON stream
content. -/
def dataQueryJson (st : St) (varNames : List String) (params : List (String × String)) :
    Except Err (List (List ℕ) × List (List (Option ℚ))) :=
  if varNames.isEmpty then .error .invalidParameter
  else if varNames.any (fun v => (st.vars.lookup v).isNone) then .error .invalidVariables
  else
    match processDimensionConstraints st params with
    | .error e => .error e
    | .ok selectors => createJsonCore st varNames selectors

/-- Row-major data of the spec's end-to-end variable
`t2m[t, la, lo] = 100·t + 10·la + lo` with shape `[5, 3, 4]`. -/
def t2mData : List ℚ :=
  (List.range 60).map (fun n => ((100 * (n / 12) + 10 * (n % 12 / 4) + n % 4 : ℕ) : ℚ))

/-- The spec's end-to-end dataset (§8): `t2m[time=5, lat=3, lon=4]` with
the given coordinates, canonical aliases pointing at the file-specific
dimension names, and an ample budget. -/
def stT2m : St :=
  { dims := [("time", 5), ("lat", 3), ("lon", 4)]
    aliasesRev := [("latitude", "lat"), ("longitude", "lon"), ("time", "time")]
    coords :=
      [("time", [1672531200, 1672534800, 1672538400, 1672542000, 1672545600]),
        ("lat", [35, 36, 37]),
        ("lon", [139, 140, 141, 142])]
    vars := [("t2m", ⟨["time", "lat", "lon"], [5, 3, 4], []⟩)]
    data := [("t2m", t2mData)]
    maxDataPoints := 10000000 }

/-- Query parameters of the C5 request
`/data?vars=t2m&time=1672531200&lat_range=35,36&__lon_index=2&format=json`. -/
def p5 : List (String × String) :=
  [("time", "1672531200"), ("lat_range", "35,36"), ("__lon_index", "2")]

/-- C5 counterexample: the request selects `time → index 0`,
`lat → indices 0..1`, `lon → index 2`, so the extracted values are
`t2m[0, 0, 2] = 2` and `t2m[0, 1, 2] = 12` — the response carries data
`{"t2m": [2, 12]}`, not the `[1, 11]` the claim states (those would be the
values at `lon` index 1). The reported shape `[2]` is as claimed. -/
theorem C5_counterexample :
    dataQueryJson stT2m ["t2m"] p5 = .ok ([[2]], [[some 2, some 12]])
      ∧ ([[some (2 : ℚ), some 12]] : List (List (Option ℚ))) ≠ [[some 1, some 11]] :=
  ⟨by with_unfolding_all rfl, by decide⟩

/-- C5 (amended): the request
`/data?vars=t2m&time=1672531200&lat_range=35,36&__lon_index=2&format=json`
on the spec's end-to-end dataset produces metadata shape `[2]` and data
`{"t2m": [2, 12]}`. -/
theorem C5_scenario_eval :
    dataQueryJson stT2m ["t2m"] p5 = .ok ([[2]], [[some 2, some 12]]) := by
  with_unfolding_all rfl

end Rossby
